import Mathlib

/-!
Shallow embedding of the SGIR core (`src/sgir/mod.rs`): a kind checker over a
polymorphic type language (`check_kinds`) and an environment-based evaluator
over a term language (`eval` / `run`).  Rust `HashMap` environments are
embedded as association lists where later insertions shadow earlier ones
(`envLookup` finds the most recently inserted binding); the evaluator, which
the source writes as general recursion and which can diverge, is embedded with
an explicit fuel parameter, and `Computes` abstracts the fuel away.
-/

namespace Sgir

abbrev Identifier := String

/-- `Kind` from the source: `Star` or `Arrow { from, to }`. -/
inductive Kind where
  | star : Kind
  | arrow (froms : List Kind) (toKind : Kind) : Kind

/-- `TypeBinding { id, kind }` from the source. -/
structure TypeBinding where
  id : Identifier
  kind : Kind

/-- `Type` from the source (named `Ty` since `Type` is taken in Lean). -/
inductive Ty where
  | var (id : Identifier) : Ty
  | forAll (parameters : List TypeBinding) (typ : Ty) : Ty
  | instantiate (typ : Ty) (arguments : List Ty) : Ty
  | function (arguments : List Ty) (result : Ty) : Ty
  | boolean : Ty
  | number : Ty

/-- `TypeError` from the source. -/
inductive TypeError where
  | kindMismatch (expected found : Kind) : TypeError
  | expectedQuantifier (found : Ty) : TypeError
  | unboundIdentifier (id : Identifier) : TypeError

mutual

/-- Structural equality of kinds, the derived `PartialEq` of the source. -/
def kindEq : Kind → Kind → Bool
  | .star, .star => true
  | .arrow fs1 t1, .arrow fs2 t2 => kindEqList fs1 fs2 && kindEq t1 t2
  | _, _ => false

/-- Structural equality of kind lists (the `Vec<Kind>` component). -/
def kindEqList : List Kind → List Kind → Bool
  | [], [] => true
  | k1 :: ks1, k2 :: ks2 => kindEq k1 k2 && kindEqList ks1 ks2
  | _, _ => false

end

/-- Association-list embedding of `HashMap::get`: the first (most recently
inserted) binding for `id` wins. -/
def envLookup {α : Type} : List (Identifier × α) → Identifier → Option α
  | [], _ => none
  | (k, v) :: rest, id => if k = id then some v else envLookup rest id

/-- Association-list embedding of `HashMap::extend` on a clone: each pair is
inserted in iteration order, later pairs shadowing earlier ones and the
original map. -/
def envExtend {α : Type} (env : List (Identifier × α)) (pairs : List (Identifier × α)) :
    List (Identifier × α) :=
  pairs.foldl (fun acc p => p :: acc) env

abbrev KindEnv := List (Identifier × Kind)

abbrev TC (α : Type) := Except TypeError α

mutual

/-- `check_kinds` from the source, case by case on the type. -/
def check_kinds (kenv : KindEnv) (typ : Ty) : TC Kind :=
  match typ with
  | .var id =>
    match envLookup kenv id with
    | some kind => .ok kind
    | none => .error (.unboundIdentifier id)
  | .forAll parameters typ =>
    let froms := parameters.map (·.kind)
    let extended := envExtend kenv (parameters.map (fun b => (b.id, b.kind)))
    match check_kinds extended typ with
    | .ok toKind => .ok (.arrow froms toKind)
    | .error e => .error e
  | .instantiate typ arguments =>
    match check_kinds kenv typ with
    | .error e => .error e
    | .ok (.arrow froms toKind) => check_inst_args kenv froms arguments toKind
    | .ok .star => .error (.expectedQuantifier typ)
  | .function _ _ => .ok .star
  | .boolean => .ok .star
  | .number => .ok .star
termination_by sizeOf typ

/-- The `for (expected, argument) in from.zip(arguments)` loop inside the
`Instantiate` arm of `check_kinds`: walks the two lists in lock step, stopping
at the shorter one, failing at the first argument whose kind differs from the
expected one, and yielding `toKind` when the loop finishes. -/
def check_inst_args (kenv : KindEnv) (froms : List Kind) (arguments : List Ty) (toKind : Kind) :
    TC Kind :=
  match froms, arguments with
  | expected :: fs, argument :: args =>
    match check_kinds kenv argument with
    | .error e => .error e
    | .ok found =>
      if kindEq expected found then check_inst_args kenv fs args toKind
      else .error (.kindMismatch expected found)
  | _, _ => .ok toKind
termination_by sizeOf arguments

end

/-- `Binding { id, typ }` from the source. -/
structure Binding where
  id : Identifier
  typ : Ty

/-- `Expression` from the source. -/
inductive Expression where
  | var (id : Identifier) : Expression
  | boolean (value : Bool) : Expression
  | number (value : Int) : Expression
  | function (parameters : List Binding) (body : Expression) : Expression
  | application (function : Expression) (arguments : List Expression) : Expression

/-- `Value` from the source: note that `function` carries no environment. -/
inductive Value where
  | boolean (value : Bool) : Value
  | number (value : Int) : Value
  | function (parameters : List Binding) (body : Expression) : Value

/-- The two panics of `eval`: the `subst[&identifier]` indexing panic on a
missing key, and the `panic!("this is not a function")` in `Application`. -/
inductive Fatal where
  | unboundVariable (id : Identifier) : Fatal
  | notAFunction (value : Value) : Fatal

abbrev Substitution := List (Identifier × Value)

mutual

/-- `eval` from the source, with a fuel parameter making the general recursion
total: `none` means the fuel ran out, `some (.error f)` models a panic, and
`some (.ok v)` a returned value. -/
def eval : Nat → Substitution → Expression → Option (Except Fatal Value)
  | 0, _, _ => none
  | _ + 1, subst, .var id =>
    match envLookup subst id with
    | some v => some (.ok v)
    | none => some (.error (.unboundVariable id))
  | _ + 1, _, .boolean value => some (.ok (.boolean value))
  | _ + 1, _, .number value => some (.ok (.number value))
  | _ + 1, _, .function parameters body => some (.ok (.function parameters body))
  | fuel + 1, subst, .application fn args =>
    match eval fuel subst fn with
    | none => none
    | some (.error f) => some (.error f)
    | some (.ok (.function parameters body)) =>
      match evalBindings fuel subst (parameters.zip args) with
      | none => none
      | some (.error f) => some (.error f)
      | some (.ok bs) => eval fuel (envExtend subst bs) body
    | some (.ok v) => some (.error (.notAFunction v))

/-- The `parameters.zip(arguments).map(|(param, arg)| (param.id, eval(subst,
arg)))` iterator feeding `extend` in the `Application` arm of `eval`: each
argument of a zipped pair is evaluated under the unextended `subst`, in order,
and a panic while evaluating one argument stops everything after it. -/
def evalBindings : Nat → Substitution → List (Binding × Expression) →
    Option (Except Fatal (List (Identifier × Value)))
  | 0, _, _ => none
  | _ + 1, _, [] => some (.ok [])
  | fuel + 1, subst, (p, arg) :: rest =>
    match eval fuel subst arg with
    | none => none
    | some (.error f) => some (.error f)
    | some (.ok v) =>
      match evalBindings fuel subst rest with
      | none => none
      | some (.error f) => some (.error f)
      | some (.ok bs) => some (.ok ((p.id, v) :: bs))

end

/-- `run` from the source: evaluate under the empty substitution. -/
def run (fuel : Nat) (expr : Expression) : Option (Except Fatal Value) :=
  eval fuel [] expr

/-- `expr` evaluates to outcome `r` given enough fuel. -/
def Computes (subst : Substitution) (expr : Expression) (r : Except Fatal Value) : Prop :=
  ∃ fuel, eval fuel subst expr = some r

/-- The zipped parameter/argument pairs evaluate to outcome `r` given enough
fuel. -/
def ComputesBindings (subst : Substitution) (pairs : List (Binding × Expression))
    (r : Except Fatal (List (Identifier × Value))) : Prop :=
  ∃ fuel, evalBindings fuel subst pairs = some r

theorem kindEq_iff_aux (n : Nat) :
    (∀ a b : Kind, sizeOf a ≤ n → (kindEq a b = true ↔ a = b)) ∧
      (∀ as bs : List Kind, sizeOf as ≤ n → (kindEqList as bs = true ↔ as = bs)) := by
  induction n with
  | zero =>
    constructor
    · intro a b h; cases a <;> simp at h
    · intro as bs h
      cases as with
      | nil =>
        cases bs with
        | nil => simp [kindEqList]
        | cons b bs => simp [kindEqList]
      | cons a as => simp at h
  | succ n ih =>
    constructor
    · intro a b h
      cases a with
      | star => cases b <;> simp [kindEq]
      | arrow fs1 t1 =>
        cases b with
        | star => simp [kindEq]
        | arrow fs2 t2 =>
          simp only [Kind.arrow.sizeOf_spec] at h
          have h1 : sizeOf fs1 ≤ n := by omega
          have h2 : sizeOf t1 ≤ n := by omega
          simp [kindEq, Bool.and_eq_true, ih.2 fs1 fs2 h1, ih.1 t1 t2 h2]
    · intro as bs h
      cases as with
      | nil => cases bs <;> simp [kindEqList]
      | cons a as =>
        cases bs with
        | nil => simp [kindEqList]
        | cons b bs =>
          simp only [List.cons.sizeOf_spec] at h
          have h1 : sizeOf a ≤ n := by omega
          have h2 : sizeOf as ≤ n := by omega
          simp [kindEqList, Bool.and_eq_true, ih.1 a b h1, ih.2 as bs h2]

/-- `kindEq` decides propositional equality of kinds. -/
theorem kindEq_iff (a b : Kind) : kindEq a b = true ↔ a = b :=
  (kindEq_iff_aux (sizeOf a)).1 a b le_rfl

theorem eval_mono_step (n : Nat) :
    (∀ s e r, eval n s e = some r → eval (n + 1) s e = some r) ∧
      (∀ s ps r, evalBindings n s ps = some r → evalBindings (n + 1) s ps = some r) := by
  induction n with
  | zero =>
    constructor
    · intro s e r h; simp [eval] at h
    · intro s ps r h; simp [evalBindings] at h
  | succ n ih =>
    constructor
    · intro s e r h
      cases e with
      | var id => simpa [eval] using h
      | boolean b => simpa [eval] using h
      | number v => simpa [eval] using h
      | function ps b => simpa [eval] using h
      | application fn args =>
        simp only [eval] at h ⊢
        cases hfn : eval n s fn with
        | none => rw [hfn] at h; simp at h
        | some rf =>
          rw [hfn] at h
          rw [ih.1 s fn rf hfn]
          cases rf with
          | error f => simpa using h
          | ok v =>
            cases v with
            | boolean bv => simpa using h
            | number nv => simpa using h
            | function ps b =>
              simp only at h ⊢
              cases hb : evalBindings n s (ps.zip args) with
              | none => rw [hb] at h; simp at h
              | some rb =>
                rw [hb] at h
                rw [ih.2 s (ps.zip args) rb hb]
                cases rb with
                | error f => simpa using h
                | ok bs =>
                  simp only at h ⊢
                  exact ih.1 _ _ _ h
    · intro s ps r h
      cases ps with
      | nil => simpa [evalBindings] using h
      | cons pr rest =>
        obtain ⟨p, arg⟩ := pr
        simp only [evalBindings] at h ⊢
        cases harg : eval n s arg with
        | none => rw [harg] at h; simp at h
        | some ra =>
          rw [harg] at h
          rw [ih.1 s arg ra harg]
          cases ra with
          | error f => simpa using h
          | ok v =>
            simp only at h ⊢
            cases hrest : evalBindings n s rest with
            | none => rw [hrest] at h; simp at h
            | some rr =>
              rw [hrest] at h
              rw [ih.2 s rest rr hrest]
              cases rr with
              | error f => simpa using h
              | ok bs => simpa using h

/-- Fuel monotonicity: a result obtained with some fuel persists with more. -/
theorem eval_mono {n m : Nat} {s : Substitution} {e : Expression}
    {r : Except Fatal Value} (hnm : n ≤ m) (h : eval n s e = some r) :
    eval m s e = some r := by
  induction m with
  | zero => exact (Nat.le_zero.mp hnm ▸ h)
  | succ m ihm =>
    rcases Nat.lt_or_ge n (m + 1) with hlt | hge
    · exact (eval_mono_step m).1 s e r (ihm (by omega))
    · have : n = m + 1 := le_antisymm hnm hge
      exact this ▸ h

/-- Fuel monotonicity for the argument-binding loop. -/
theorem evalBindings_mono {n m : Nat} {s : Substitution}
    {ps : List (Binding × Expression)} {r : Except Fatal (List (Identifier × Value))}
    (hnm : n ≤ m) (h : evalBindings n s ps = some r) :
    evalBindings m s ps = some r := by
  induction m with
  | zero => exact (Nat.le_zero.mp hnm ▸ h)
  | succ m ihm =>
    rcases Nat.lt_or_ge n (m + 1) with hlt | hge
    · exact (eval_mono_step m).2 s ps r (ihm (by omega))
    · have : n = m + 1 := le_antisymm hnm hge
      exact this ▸ h

/-- Two terminating evaluations of the same expression agree. -/
theorem eval_agree {n m : Nat} {s : Substitution} {e : Expression}
    {r1 r2 : Except Fatal Value} (h1 : eval n s e = some r1)
    (h2 : eval m s e = some r2) : r1 = r2 := by
  rcases Nat.le_total n m with h | h
  · have h3 := eval_mono h h1
    rw [h3] at h2; exact Option.some.inj h2
  · have h3 := eval_mono h h2
    rw [h3] at h1; exact (Option.some.inj h1).symm

theorem envExtend_cons {α : Type} (env : List (Identifier × α)) (p : Identifier × α)
    (rest : List (Identifier × α)) :
    envExtend env (p :: rest) = envExtend (p :: env) rest := rfl

theorem envExtend_append {α : Type} (env ps qs : List (Identifier × α)) :
    envExtend env (ps ++ qs) = envExtend (envExtend env ps) qs :=
  List.foldl_append _ _ _ _

/-- The binding inserted last wins the lookup. -/
theorem envLookup_extend_snoc {α : Type} (env pairs : List (Identifier × α))
    (id : Identifier) (v : α) :
    envLookup (envExtend env (pairs ++ [(id, v)])) id = some v := by
  rw [envExtend_append]
  simp [envExtend, envLookup]

/-- Extension by pairs whose keys avoid `id` does not disturb `id`. -/
theorem envLookup_extend_of_notMem {α : Type} :
    ∀ (pairs env : List (Identifier × α)) (id : Identifier),
      id ∉ pairs.map Prod.fst → envLookup (envExtend env pairs) id = envLookup env id := by
  intro pairs
  induction pairs with
  | nil => intro env id _; rfl
  | cons p rest ih =>
    intro env id h
    obtain ⟨k, v⟩ := p
    simp only [List.map_cons, List.mem_cons] at h
    push_neg at h
    rw [envExtend_cons, ih _ _ h.2]
    simp [envLookup, Ne.symm h.1]

theorem check_inst_args_all_ok (kenv : KindEnv) :
    ∀ (froms : List Kind) (args : List Ty) (toKind : Kind),
      (∀ p ∈ froms.zip args, check_kinds kenv p.2 = .ok p.1) →
      check_inst_args kenv froms args toKind = .ok toKind := by
  intro froms
  induction froms with
  | nil => intro args toKind _; cases args <;> simp [check_inst_args]
  | cons f fs ih =>
    intro args toKind h
    cases args with
    | nil => simp [check_inst_args]
    | cons a as =>
      have ha : check_kinds kenv a = .ok f := h (f, a) (by simp)
      have hrec := ih as toKind (fun p hp => h p (by simp [hp]))
      simp [check_inst_args, ha, (kindEq_iff f f).mpr rfl, hrec]

theorem check_inst_args_first_mismatch (kenv : KindEnv) :
    ∀ (good : List (Kind × Ty)) (froms : List Kind) (args : List Ty) (toKind : Kind)
      (expected : Kind) (a : Ty) (rest : List (Kind × Ty)) (found : Kind),
      froms.zip args = good ++ (expected, a) :: rest →
      (∀ p ∈ good, check_kinds kenv p.2 = .ok p.1) →
      check_kinds kenv a = .ok found →
      found ≠ expected →
      check_inst_args kenv froms args toKind = .error (.kindMismatch expected found) := by
  intro good
  induction good with
  | nil =>
    intro froms args toKind expected a rest found hzip hgood ha hne
    cases froms with
    | nil => simp at hzip
    | cons f fs =>
      cases args with
      | nil => simp at hzip
      | cons a0 as =>
        simp only [List.zip_cons_cons, List.nil_append, List.cons.injEq, Prod.mk.injEq] at hzip
        obtain ⟨⟨hf, ha0⟩, _⟩ := hzip
        subst hf; subst ha0
        have hk : kindEq f found = false := by
          cases hk : kindEq f found with
          | false => rfl
          | true => exact absurd ((kindEq_iff _ _).mp hk).symm hne
        simp [check_inst_args, ha, hk]
  | cons g gs ih =>
    intro froms args toKind expected a rest found hzip hgood ha hne
    cases froms with
    | nil => simp at hzip
    | cons f fs =>
      cases args with
      | nil => simp at hzip
      | cons a0 as =>
        simp only [List.zip_cons_cons, List.cons_append, List.cons.injEq] at hzip
        obtain ⟨hg, hrest⟩ := hzip
        have hga : check_kinds kenv a0 = .ok f := by
          have hmem := hgood g (by simp)
          rw [← hg] at hmem
          exact hmem
        have hrec := ih fs as toKind expected a rest found hrest
          (fun p hp => hgood p (by simp [hp])) ha hne
        simp [check_inst_args, hga, (kindEq_iff f f).mpr rfl, hrec]

/-- C2: on `Instantiate { head, arguments }`, `check_kinds` first checks
`head` under the original environment, propagating its error; a `Star` head
yields `ExpectedQuantifier` carrying the original head; with an
`Arrow { from, to }` head it walks `from` and `arguments` pairwise up to the
shorter length, succeeding with `to` when every compared pair agrees, and
failing with `KindMismatch { expected, found }` at the first unequal pair, no
matter what the later arguments are. -/
theorem claim_c2_instantiate :
    (∀ (kenv : KindEnv) (head : Ty) (args : List Ty) (e : TypeError),
        check_kinds kenv head = .error e →
        check_kinds kenv (.instantiate head args) = .error e) ∧
    (∀ (kenv : KindEnv) (head : Ty) (args : List Ty),
        check_kinds kenv head = .ok .star →
        check_kinds kenv (.instantiate head args) = .error (.expectedQuantifier head)) ∧
    (∀ (kenv : KindEnv) (head : Ty) (args : List Ty) (froms : List Kind) (toKind : Kind),
        check_kinds kenv head = .ok (.arrow froms toKind) →
        (∀ p ∈ froms.zip args, check_kinds kenv p.2 = .ok p.1) →
        check_kinds kenv (.instantiate head args) = .ok toKind) ∧
    (∀ (kenv : KindEnv) (head : Ty) (args : List Ty) (froms : List Kind) (toKind : Kind)
        (good : List (Kind × Ty)) (expected : Kind) (a : Ty) (rest : List (Kind × Ty))
        (found : Kind),
        check_kinds kenv head = .ok (.arrow froms toKind) →
        froms.zip args = good ++ (expected, a) :: rest →
        (∀ p ∈ good, check_kinds kenv p.2 = .ok p.1) →
        check_kinds kenv a = .ok found →
        found ≠ expected →
        check_kinds kenv (.instantiate head args) = .error (.kindMismatch expected found)) := by
  refine ⟨?_, ?_, ?_, ?_⟩
  · intro kenv head args e hhead
    simp [check_kinds, hhead]
  · intro kenv head args hhead
    simp [check_kinds, hhead]
  · intro kenv head args froms toKind hhead hargs
    simp [check_kinds, hhead, check_inst_args_all_ok kenv froms args toKind hargs]
  · intro kenv head args froms toKind good expected a rest found hhead hzip hgood ha hne
    simp [check_kinds, hhead,
      check_inst_args_first_mismatch kenv good froms args toKind expected a rest found
        hzip hgood ha hne]

/-- C2 witness: instantiating the polymorphic identity type with an argument
of kind `Arrow { [Star], Star }` fails with the expected `KindMismatch`. -/
theorem claim_c2_instantiate_witness :
    check_kinds []
        (.instantiate (.forAll [⟨"a", .star⟩] (.function [.var "a"] (.var "a")))
          [.forAll [⟨"b", .star⟩] (.var "b")]) =
      .error (.kindMismatch .star (.arrow [.star] .star)) :=
  claim_c2_instantiate.2.2.2 [] (.forAll [⟨"a", .star⟩] (.function [.var "a"] (.var "a")))
    [.forAll [⟨"b", .star⟩] (.var "b")] [.star] .star [] .star
    (.forAll [⟨"b", .star⟩] (.var "b")) [] (.arrow [.star] .star)
    (by simp [check_kinds, envExtend, envLookup])
    (by simp)
    (by simp)
    (by simp [check_kinds, envExtend, envLookup])
    (by simp)

/-- C3: on `ForAll { parameters, body }`, `check_kinds` yields
`Arrow { from, to }` with `from` the declared parameter kinds in order and
`to` the kind of the body under the environment extended with every
`(parameter.id, parameter.kind)` pair, later parameters shadowing earlier ones
with the same identifier and untouched identifiers keeping their outer
binding; a body error propagates unchanged; and the polymorphic identity type
checks to `Arrow { [Star], Star }` in the empty environment. -/
theorem claim_c3_forall :
    (∀ (kenv : KindEnv) (parameters : List TypeBinding) (body : Ty) (toKind : Kind),
        check_kinds (envExtend kenv (parameters.map (fun b => (b.id, b.kind)))) body =
            .ok toKind →
        check_kinds kenv (.forAll parameters body) =
          .ok (.arrow (parameters.map (·.kind)) toKind)) ∧
    (∀ (kenv : KindEnv) (parameters : List TypeBinding) (body : Ty) (e : TypeError),
        check_kinds (envExtend kenv (parameters.map (fun b => (b.id, b.kind)))) body =
            .error e →
        check_kinds kenv (.forAll parameters body) = .error e) ∧
    (∀ (kenv : KindEnv) (ps : List TypeBinding) (id : Identifier) (k : Kind),
        envLookup
            (envExtend kenv ((ps ++ [TypeBinding.mk id k]).map (fun b => (b.id, b.kind)))) id =
          some k) ∧
    (∀ (kenv : KindEnv) (ps : List TypeBinding) (id : Identifier),
        id ∉ ps.map TypeBinding.id →
        envLookup (envExtend kenv (ps.map (fun b => (b.id, b.kind)))) id =
          envLookup kenv id) ∧
    check_kinds [] (.forAll [⟨"a", .star⟩] (.function [.var "a"] (.var "a"))) =
      .ok (.arrow [.star] .star) := by
  refine ⟨?_, ?_, ?_, ?_, ?_⟩
  · intro kenv parameters body toKind hbody
    simp [check_kinds, hbody]
  · intro kenv parameters body e hbody
    simp [check_kinds, hbody]
  · intro kenv ps id k
    have h := envLookup_extend_snoc kenv (ps.map (fun b => (b.id, b.kind))) id k
    simpa using h
  · intro kenv ps id h
    apply envLookup_extend_of_notMem
    simpa using h
  · simp [check_kinds, envExtend, envLookup]

/-- C3 witness: the polymorphic identity type via the general `ForAll` rule. -/
theorem claim_c3_forall_witness :
    check_kinds [] (.forAll [⟨"a", .star⟩] (.function [.var "a"] (.var "a"))) =
      .ok (.arrow [.star] .star) :=
  claim_c3_forall.1 [] [⟨"a", .star⟩] (.function [.var "a"] (.var "a")) .star
    (by simp [check_kinds])

/-- C6: on `Variable(id)`, `check_kinds` succeeds with exactly the kind the
environment maps `id` to, and fails with `UnboundIdentifier(id)` exactly when
`id` is absent; `Variable("foo")` in the empty environment is unbound. -/
theorem claim_c6_variable :
    (∀ (kenv : KindEnv) (id : Identifier) (k : Kind),
        check_kinds kenv (.var id) = .ok k ↔ envLookup kenv id = some k) ∧
    (∀ (kenv : KindEnv) (id : Identifier),
        check_kinds kenv (.var id) = .error (.unboundIdentifier id) ↔
          envLookup kenv id = none) ∧
    check_kinds [] (.var "foo") = .error (.unboundIdentifier "foo") := by
  refine ⟨?_, ?_, ?_⟩
  · intro kenv id k
    cases h : envLookup kenv id <;> simp [check_kinds, h]
  · intro kenv id
    cases h : envLookup kenv id <;> simp [check_kinds, h]
  · simp [check_kinds, envLookup]

/-- C6 witness: a bound variable comes back with its kind from the
environment. -/
theorem claim_c6_variable_witness :
    check_kinds [("a", Kind.star)] (.var "a") = .ok .star :=
  (claim_c6_variable.1 [("a", Kind.star)] "a" .star).mpr (by simp [envLookup])

/-- C7: `Boolean`, `Number` and every `Function` type have kind `Star` under
any environment, with no recursion into the function's argument or result
types, so a function type over ill-formed subtypes still checks. -/
theorem claim_c7_base_types :
    (∀ kenv : KindEnv, check_kinds kenv .boolean = .ok .star) ∧
    (∀ kenv : KindEnv, check_kinds kenv .number = .ok .star) ∧
    (∀ (kenv : KindEnv) (args : List Ty) (result : Ty),
        check_kinds kenv (.function args result) = .ok .star) := by
  refine ⟨?_, ?_, ?_⟩
  · intro kenv; simp [check_kinds]
  · intro kenv; simp [check_kinds]
  · intro kenv args result; simp [check_kinds]

/-- Introduction rule for `Application`, read off the `Application` arm of
`eval`: evaluate the function, evaluate the zipped parameter/argument pairs
under the unextended environment, then evaluate the body under the extended
environment. -/
theorem eval_application_intro {env : Substitution} {fn : Expression}
    {args : List Expression} {ps : List Binding} {body : Expression}
    {bs : List (Identifier × Value)} {r : Except Fatal Value}
    (hfn : Computes env fn (.ok (.function ps body)))
    (hargs : ComputesBindings env (ps.zip args) (.ok bs))
    (hbody : Computes (envExtend env bs) body r) :
    Computes env (.application fn args) r := by
  obtain ⟨n1, h1⟩ := hfn
  obtain ⟨n2, h2⟩ := hargs
  obtain ⟨n3, h3⟩ := hbody
  refine ⟨n1 + n2 + n3 + 1, ?_⟩
  have h1m : eval (n1 + n2 + n3) env fn = some (.ok (.function ps body)) :=
    eval_mono (by omega) h1
  have h2m : evalBindings (n1 + n2 + n3) env (ps.zip args) = some (.ok bs) :=
    evalBindings_mono (by omega) h2
  have h3m : eval (n1 + n2 + n3) (envExtend env bs) body = some r :=
    eval_mono (by omega) h3
  simp only [eval, h1m, h2m, h3m]

theorem zip_take_length {α β : Type} :
    ∀ (ps : List α) (args : List β), ps.zip (args.take ps.length) = ps.zip args := by
  intro ps
  induction ps with
  | nil => intro args; simp
  | cons p ps ih =>
    intro args
    cases args with
    | nil => simp
    | cons a as => simp [ih as]

/-- C1: applying a function evaluates the function, then each zipped
parameter/argument pair under the original environment, then the body under
the extension of that same environment by the resulting bindings; the
identity function applied to `Number(42)` in the empty environment yields
`Number(42)`, and a sibling argument mentioning a parameter's name still sees
the outer binding, never the fresh one. -/
theorem claim_c1_application :
    (∀ (env : Substitution) (fn : Expression) (args : List Expression)
        (ps : List Binding) (body : Expression) (bs : List (Identifier × Value))
        (r : Except Fatal Value),
        Computes env fn (.ok (.function ps body)) →
        ComputesBindings env (ps.zip args) (.ok bs) →
        Computes (envExtend env bs) body r →
        Computes env (.application fn args) r) ∧
    Computes [] (.application (.function [⟨"x", .number⟩] (.var "x")) [.number 42])
      (.ok (.number 42)) ∧
    Computes [("x", Value.number 10)]
      (.application (.function [⟨"x", .number⟩, ⟨"y", .number⟩] (.var "y"))
        [.number 1, .var "x"])
      (.ok (.number 10)) :=
  ⟨fun _ _ _ _ _ _ _ hfn hargs hbody => eval_application_intro hfn hargs hbody,
    ⟨3, rfl⟩, ⟨5, rfl⟩⟩

/-- C1 witness: the application rule at a concrete input. -/
theorem claim_c1_application_witness :
    Computes [] (.application (.function [⟨"x", .boolean⟩] (.var "x")) [.boolean true])
      (.ok (.boolean true)) :=
  claim_c1_application.1 [] (.function [⟨"x", .boolean⟩] (.var "x")) [.boolean true]
    [⟨"x", .boolean⟩] (.var "x") [("x", Value.boolean true)] (.ok (.boolean true))
    ⟨1, rfl⟩ ⟨2, rfl⟩ ⟨1, rfl⟩

/-- C4: `eval`'s only fatal outcomes are the unbound-variable panic, produced
exactly when a `Variable`'s identifier misses the environment, and the
not-a-function panic, produced when the function part of an `Application`
evaluates to a non-function value; every terminating evaluation otherwise
returns a value, with no recoverable error channel. -/
theorem claim_c4_fatal_taxonomy :
    (∀ (env : Substitution) (id : Identifier),
        Computes env (.var id) (.error (.unboundVariable id)) ↔ envLookup env id = none) ∧
    (∀ (env : Substitution) (id : Identifier) (v : Value),
        Computes env (.var id) (.ok v) ↔ envLookup env id = some v) ∧
    (∀ (env : Substitution) (fn : Expression) (args : List Expression) (v : Value),
        Computes env fn (.ok v) →
        (∀ ps body, v ≠ .function ps body) →
        Computes env (.application fn args) (.error (.notAFunction v))) ∧
    (∀ (env : Substitution) (e : Expression) (f : Fatal),
        Computes env e (.error f) →
        (∃ id, f = .unboundVariable id) ∨ (∃ v, f = .notAFunction v)) ∧
    (∀ (env : Substitution) (e : Expression) (r : Except Fatal Value),
        Computes env e r → (∃ v, r = .ok v) ∨ (∃ f, r = .error f)) := by
  refine ⟨?_, ?_, ?_, ?_, ?_⟩
  · intro env id
    constructor
    · rintro ⟨n, h⟩
      cases n with
      | zero => simp [eval] at h
      | succ n =>
        simp only [eval] at h
        cases hl : envLookup env id with
        | some v => rw [hl] at h; simp at h
        | none => rfl
    · intro hl
      exact ⟨1, by simp [eval, hl]⟩
  · intro env id v
    constructor
    · rintro ⟨n, h⟩
      cases n with
      | zero => simp [eval] at h
      | succ n =>
        simp only [eval] at h
        cases hl : envLookup env id with
        | some w => rw [hl] at h; simp at h; simp [h]
        | none => rw [hl] at h; simp at h
    · intro hl
      exact ⟨1, by simp [eval, hl]⟩
  · intro env fn args v hfn hne
    obtain ⟨n, h⟩ := hfn
    refine ⟨n + 1, ?_⟩
    cases v with
    | function ps body => exact absurd rfl (hne ps body)
    | boolean b => simp only [eval, h]
    | number m => simp only [eval, h]
  · intro env e f _
    cases f with
    | unboundVariable id => exact Or.inl ⟨id, rfl⟩
    | notAFunction v => exact Or.inr ⟨v, rfl⟩
  · intro env e r _
    cases r with
    | ok v => exact Or.inl ⟨v, rfl⟩
    | error f => exact Or.inr ⟨f, rfl⟩

/-- C4 witness: applying the number `7` panics with the not-a-function
failure. -/
theorem claim_c4_fatal_taxonomy_witness :
    Computes [] (.application (.number 7) []) (.error (.notAFunction (.number 7))) :=
  claim_c4_fatal_taxonomy.2.2.1 [] (.number 7) [] (.number 7) ⟨1, rfl⟩
    (by intro ps body h; simp at h)

/-- C5: evaluating a function literal wraps its parameter list and body
unchanged into a `Value.function`, capturing nothing from the environment;
consequently a function evaluated in one scope but applied in another reads
free variables from the environment at the application site (dynamic
scoping), as the closed program in the last conjunct shows: `y` is unbound
where the literal `fun => y` is written, yet the whole program evaluates to
the `2` bound at the call site. -/
theorem claim_c5_function_literal :
    (∀ (env : Substitution) (ps : List Binding) (body : Expression),
        Computes env (.function ps body) (.ok (.function ps body))) ∧
    (∀ (env : Substitution) (ps : List Binding) (body : Expression)
        (r : Except Fatal Value),
        Computes env (.function ps body) r → r = .ok (.function ps body)) ∧
    Computes []
      (.application
        (.function [⟨"g", .number⟩]
          (.application
            (.function [⟨"y", .number⟩] (.application (.var "g") []))
            [.number 2]))
        [.function [] (.var "y")])
      (.ok (.number 2)) := by
  refine ⟨?_, ?_, ⟨10, rfl⟩⟩
  · intro env ps body
    exact ⟨1, rfl⟩
  · intro env ps body r hr
    obtain ⟨n, h⟩ := hr
    cases n with
    | zero => simp [eval] at h
    | succ n => simp only [eval] at h; exact (Option.some.inj h).symm

/-- C5 witness: the uniqueness half at a concrete function literal. -/
theorem claim_c5_function_literal_witness :
    (Except.ok (Value.function [] (.var "z")) : Except Fatal Value) =
      .ok (.function [] (.var "z")) :=
  claim_c5_function_literal.2.1 [] [] (.var "z") (.ok (.function [] (.var "z"))) ⟨1, rfl⟩

/-- C8: `run` is deterministic — whenever two runs of the same expression
both return values, the values are structurally equal. -/
theorem claim_c8_run_deterministic :
    ∀ (e : Expression) (n m : Nat) (v1 v2 : Value),
      run n e = some (.ok v1) → run m e = some (.ok v2) → v1 = v2 := by
  intro e n m v1 v2 h1 h2
  simp only [run] at h1 h2
  exact Except.ok.inj (eval_agree h1 h2)

/-- C8 witness: determinism applied to the identity application returning
`42`. -/
theorem claim_c8_run_deterministic_witness : Value.number 42 = Value.number 42 :=
  claim_c8_run_deterministic
    (.application (.function [⟨"x", .number⟩] (.var "x")) [.number 42]) 3 4
    (.number 42) (.number 42) rfl rfl

/-- Evaluating an application only consults the arguments that are zipped
against a parameter: once the function part is known to evaluate to a
function with parameters `ps`, the argument list can be truncated to
`ps.length` without changing anything, at every fuel. -/
theorem eval_application_take_eq {env : Substitution} {fn : Expression}
    {ps : List Binding} {body : Expression}
    (hfn : Computes env fn (.ok (.function ps body))) (args : List Expression) :
    ∀ n, eval n env (.application fn args) =
      eval n env (.application fn (args.take ps.length)) := by
  obtain ⟨k, hk⟩ := hfn
  intro n
  cases n with
  | zero => rfl
  | succ n =>
    simp only [eval]
    cases hfn2 : eval n env fn with
    | none => rfl
    | some rf =>
      have hrf : rf = .ok (.function ps body) := eval_agree hfn2 hk
      subst hrf
      simp only
      rw [zip_take_length]

/-- C9: excess application arguments are never evaluated — when the function
part evaluates to a function with parameters `ps`, the application computes
exactly the same outcomes as the one keeping only the first `ps.length`
arguments; concretely, an unbound variable sitting in an excess argument
position does not disturb the call. -/
theorem claim_c9_excess_arguments :
    (∀ (env : Substitution) (fn : Expression) (args : List Expression)
        (ps : List Binding) (body : Expression) (r : Except Fatal Value),
        Computes env fn (.ok (.function ps body)) →
        (Computes env (.application fn args) r ↔
          Computes env (.application fn (args.take ps.length)) r)) ∧
    Computes [] (.application (.function [⟨"x", .number⟩] (.var "x"))
        [.number 1, .var "boom"])
      (.ok (.number 1)) := by
  refine ⟨?_, ⟨3, rfl⟩⟩
  intro env fn args ps body r hfn
  constructor
  · rintro ⟨n, h⟩
    exact ⟨n, ((eval_application_take_eq hfn args n).symm.trans h)⟩
  · rintro ⟨n, h⟩
    exact ⟨n, ((eval_application_take_eq hfn args n).trans h)⟩

/-- C9 witness: the truncation equivalence at a concrete call with one excess
argument. -/
theorem claim_c9_excess_arguments_witness :
    Computes [] (.application (.function [⟨"x", .number⟩] (.var "x"))
        [.number 5, .number 6])
      (.ok (.number 5)) :=
  (claim_c9_excess_arguments.1 [] (.function [⟨"x", .number⟩] (.var "x"))
      [.number 5, .number 6] [⟨"x", .number⟩] (.var "x") (.ok (.number 5))
      ⟨1, rfl⟩).mpr ⟨3, rfl⟩

/-- C10: there is no partial application — with fewer arguments than
parameters the body is still evaluated at once under the environment extended
only by the matched pairs, so a body reference to an unmatched parameter is
the fatal unbound-variable failure, and the result is whatever the body
produces rather than a function awaiting the rest. -/
theorem claim_c10_no_partial_application :
    (∀ (env : Substitution) (fn : Expression) (args : List Expression)
        (ps : List Binding) (body : Expression) (bs : List (Identifier × Value))
        (r : Except Fatal Value),
        args.length < ps.length →
        Computes env fn (.ok (.function ps body)) →
        ComputesBindings env (ps.zip args) (.ok bs) →
        Computes (envExtend env bs) body r →
        Computes env (.application fn args) r) ∧
    Computes [] (.application (.function [⟨"x", .number⟩, ⟨"y", .number⟩] (.var "y"))
        [.number 1])
      (.error (.unboundVariable "y")) ∧
    Computes [] (.application (.function [⟨"x", .number⟩, ⟨"y", .number⟩] (.var "x"))
        [.number 1])
      (.ok (.number 1)) :=
  ⟨fun _ _ _ _ _ _ _ _ hfn hargs hbody => eval_application_intro hfn hargs hbody,
    ⟨3, rfl⟩, ⟨3, rfl⟩⟩

/-- C10 witness: a two-parameter function applied to a single argument still
runs its body immediately. -/
theorem claim_c10_no_partial_application_witness :
    Computes [] (.application
        (.function [⟨"p", .number⟩, ⟨"q", .number⟩] (.boolean true)) [.number 3])
      (.ok (.boolean true)) :=
  claim_c10_no_partial_application.1 []
    (.function [⟨"p", .number⟩, ⟨"q", .number⟩] (.boolean true)) [.number 3]
    [⟨"p", .number⟩, ⟨"q", .number⟩] (.boolean true) [("p", Value.number 3)]
    (.ok (.boolean true)) (by decide) ⟨1, rfl⟩ ⟨2, rfl⟩ ⟨1, rfl⟩

end Sgir
